import Mathlib

/-!
Shallow embedding of `OptionSpinner.py` (a utility that picks random
above-median-liquidity S&P-500 tickers), together with theorems settling
the specification's claims about it.

Modelling conventions:
* calendar dates are modelled as integers (a day count), so `today - as_of`
  is integer subtraction, matching `(dt.date.today() - as_of).days`;
* the external collaborators (the Wikipedia scrape, the yfinance options
  data source, and the standard-library PRNG) are abstracted as explicit
  inputs: a roster list, a per-ticker data record, and a stream of
  naturals driving the sampler;
* pandas float arithmetic on integer open-interest values is modelled
  over `ℚ`; the one place a float non-number can arise (`ser / ser.max()`
  when `ser.max()` is `0`, giving `NaN`/`inf`) is modelled as `none`.
-/

namespace OptionSpinner

/-- Configured maximum roster-cache age in days (`MAX_CACHE_AGE_DAYS = 7`). -/
def MAX_CACHE_AGE_DAYS : ℤ := 7

/-- State of the roster cache file as the program sees it: `none` when the
file is missing or fails to parse, otherwise the stored tickers and the
stored `as_of` date. -/
abbrev RosterCache : Type := Option (List String × ℤ)

/-- Embeds `load_cached_members`: returns `(tickers, as_of_date)` or
`(None, None)` when the cache is missing/corrupt. -/
def load_cached_members (cache : RosterCache) : Option (List String) × Option ℤ :=
  match cache with
  | none => (none, none)
  | some (ts, d) => (some ts, some d)

/-- Embeds the refresh decision of `get_sp500_members`:
`force_refresh or cached is None or cache_age is None or cache_age > MAX_CACHE_AGE_DAYS`,
where `cache_age = (today - as_of).days if as_of else None`. -/
def should_refresh (force : Bool) (cached : Option (List String)) (asOf : Option ℤ)
    (today maxAge : ℤ) : Bool :=
  force || cached.isNone ||
    (match asOf.map (fun d => today - d) with
     | none => true
     | some age => decide (age > maxAge))

/-- Embeds `get_sp500_members`: load the cache; if refresh is needed, take the
scraped roster (and the caller persists it), otherwise return the cached list. -/
def get_sp500_members (force : Bool) (cache : RosterCache) (scraped : List String)
    (today : ℤ) : List String :=
  let c := load_cached_members cache
  if should_refresh force c.1 c.2 today MAX_CACHE_AGE_DAYS then scraped
  else c.1.getD []

/-- One expiry's option chain as delivered by the data source: the
`openInterest` column of the calls and puts tables, with `none` for a
missing/null entry. -/
structure OptionChain where
  calls : List (Option ℕ)
  puts : List (Option ℕ)

/-- Everything the options data source can answer for one ticker.
`options` is the expiration list (`Except.error` models a raised exception),
and `chain e` is the option chain for expiry `e` (again possibly raising). -/
structure TickerData where
  options : Except Unit (List String)
  chain : String → Except Unit OptionChain

/-- Embeds `series.fillna(0).sum()` on an `openInterest` column. -/
def sumOI (xs : List (Option ℕ)) : ℕ :=
  (xs.map (fun o => o.getD 0)).sum

/-- Embeds `option_liquidity_metric`: total open interest (calls + puts) on
the first-listed expiry; the surrounding `try/except` converts any raised
error into `0`, and an empty expiration list also yields `0`. -/
def option_liquidity_metric (tk : TickerData) : ℕ :=
  let body : Except Unit ℕ :=
    match tk.options with
    | Except.error e => Except.error e
    | Except.ok [] => Except.ok 0
    | Except.ok (nearest :: _) =>
        match tk.chain nearest with
        | Except.error e => Except.error e
        | Except.ok ch => Except.ok (sumOI ch.calls + sumOI ch.puts)
  match body with
  | Except.error _ => 0
  | Except.ok v => v

/-- Embeds `build_liquidity_table`: loop through the tickers and produce the
mapping `ticker ↦ open_interest` (insertion order; distinct tickers give one
entry each, as in the Python dict). -/
def build_liquidity_table (fetch : String → ℕ) (tickers : List String) :
    List (String × ℕ) :=
  tickers.map (fun t => (t, fetch t))

/-- Embeds `ser.rank(ascending=False, method="min")` at one value: tied
values share the best (lowest) rank, which is one plus the number of
strictly larger values in the column. -/
def rankOf (values : List ℕ) (v : ℕ) : ℕ :=
  1 + values.countP (fun w => decide (v < w))

/-- Embeds `.round(2)` on a rational: round to two decimal places. -/
def round2 (q : ℚ) : ℚ :=
  (round (q * 100) : ℤ) / 100

/-- Embeds `(ser / ser.max() * 100).round(2)` at one value.  When the column
maximum is `0` the float division is `0/0 = NaN` (all values are `0` then),
modelled as `none`; otherwise the rounded percentage is returned. -/
def pct_of_max (values : List ℕ) (v : ℕ) : Option ℚ :=
  let m := values.foldr max 0
  if m = 0 then none
  else some (round2 ((v : ℚ) / (m : ℚ) * 100))

/-- A row of the annotated liquidity table (`open_interest`, `rank`,
`pct_of_max`, indexed by ticker). -/
structure LiqRecord where
  ticker : String
  open_interest : ℕ
  rank : ℕ
  pct : Option ℚ
deriving DecidableEq, Repr

/-- Embeds the DataFrame construction in `main`: attach `rank` and
`pct_of_max` columns to the built `ticker ↦ open_interest` mapping. -/
def annotate (liq : List (String × ℕ)) : List LiqRecord :=
  let values := liq.map Prod.snd
  liq.map (fun p => ⟨p.1, p.2, rankOf values p.2, pct_of_max values p.2⟩)

/-- Middle of an already sorted column: an odd-length column takes the
middle value, an even-length one the mean of the two middle values.
(The empty column, `NaN` in pandas, is given the junk value `0`; no claim
uses it.) -/
def medianSorted (s : List ℕ) : ℚ :=
  if s.length % 2 = 1 then (s.getD (s.length / 2) 0 : ℚ)
  else ((s.getD (s.length / 2 - 1) 0 : ℚ) + (s.getD (s.length / 2) 0 : ℚ)) / 2

/-- Embeds `ser.median()` (pandas): sort the column and take its middle. -/
def median (values : List ℕ) : ℚ :=
  medianSorted (List.insertionSort (· ≤ ·) values)

/-- Embeds `df.loc[ser > median_oi].index.tolist()`: the tickers whose open
interest is strictly greater than the column median. -/
def eligibleOf (liq : List (String × ℕ)) : List String :=
  let med := median (liq.map Prod.snd)
  (liq.filter (fun p => decide (med < (p.2 : ℚ)))).map Prod.fst

/-- Model of the standard library's `random.sample(population, k)`: draw `k`
elements without replacement.  The seeded PRNG is abstracted as a stream
`r` of naturals; the draw with `i` draws left to go picks index
`r i mod (remaining pool size)` and removes that element from the pool. -/
def randomSample (r : ℕ → ℕ) : ℕ → List String → List String
  | 0, _ => []
  | _ + 1, [] => []
  | k + 1, p :: ps =>
      (p :: ps).get ⟨r k % (p :: ps).length, Nat.mod_lt _ (Nat.succ_pos ps.length)⟩ ::
        randomSample r k ((p :: ps).eraseIdx (r k % (p :: ps).length))

/-- Embeds the sampling step of `main`: raise
`RuntimeError("Not enough eligible tickers to sample from.")` when the
eligible pool is smaller than the requested count, otherwise sample. -/
def samplePicks (r : ℕ → ℕ) (count : ℕ) (eligible : List String) :
    Except String (List String) :=
  if eligible.length < count then
    Except.error "Not enough eligible tickers to sample from."
  else Except.ok (randomSample r count eligible)

/-- Comma thousands-grouping of the decimal digits of a natural number
(Python's comma format option): digits grouped in threes from the right,
groups joined by commas. -/
def commaGroupDigits (n : ℕ) : String :=
  String.mk
    ((((Nat.toDigits 10 n).reverse.toChunks 3).intersperse [',']).flatten.reverse)

/-- Embeds the report's rendering of one open-interest value, the f-string
piece formatting `row.open_interest` with the comma option: `df.loc[tkr]`
extracts a single row from the mixed `int64`/`float64` frame and upcasts
it to `float64`, so the integer open interest is printed as a float — its
comma-grouped digits followed by `".0"` (Python's fixed-point rendering of
an integral `float64`, exact for values below `10 ^ 16`). -/
def formatOpenInterest (n : ℕ) : String :=
  commaGroupDigits n ++ ".0"

/-- The whole environment one run of `main` observes: today's date, the
roster cache file, what a scrape would return, the per-ticker options data,
the persisted liquidity CSV (content and age in days, `none` when the file
is missing), and the PRNG stream. -/
structure Env where
  today : ℤ
  rosterCache : RosterCache
  scraped : List String
  tickerData : String → TickerData
  liqCsv : Option (List LiqRecord × ℕ)
  rand : ℕ → ℕ

/-- What a successful run produces: the annotated table (also what is
written to the CSV), the median open interest, and the sampled picks. -/
structure Report where
  table : List LiqRecord
  medianOI : ℚ
  picks : List String
deriving Repr

/-- Embeds `main` end to end: resolve the roster, build the liquidity
mapping by per-ticker fetch, annotate with `rank` and `pct_of_max`, write
the CSV, filter strictly above the median, and sample, failing when the
eligible pool is too small. -/
def mainRun (count : ℕ) (refresh : Bool) (env : Env) : Except String Report :=
  let sp500 := get_sp500_members refresh env.rosterCache env.scraped env.today
  let liquidity := build_liquidity_table
    (fun t => option_liquidity_metric (env.tickerData t)) sp500
  let df := annotate liquidity
  let med := median (liquidity.map Prod.snd)
  let eligible := eligibleOf liquidity
  match samplePicks env.rand count eligible with
  | Except.error e => Except.error e
  | Except.ok picks => Except.ok ⟨df, med, picks⟩

/-- The table a run produced, when it succeeded. -/
def builtTable (res : Except String Report) : Option (List LiqRecord) :=
  match res with
  | Except.error _ => none
  | Except.ok r => some r.table

theorem median_example : median [10, 20, 30, 40] = 25 := by
  norm_num [median, medianSorted, List.insertionSort, List.orderedInsert]

theorem mem_eligibleOf (liq : List (String × ℕ)) (t : String) :
    t ∈ eligibleOf liq ↔
      ∃ v, (t, v) ∈ liq ∧ median (liq.map Prod.snd) < (v : ℚ) := by
  simp only [eligibleOf, List.mem_map, List.mem_filter, decide_eq_true_eq]
  constructor
  · rintro ⟨⟨a, b⟩, ⟨hm, hlt⟩, rfl⟩
    exact ⟨b, hm, hlt⟩
  · rintro ⟨v, hm, hlt⟩
    exact ⟨(t, v), ⟨hm, hlt⟩, rfl⟩

/-- C6: the eligible set is exactly the tickers whose open interest is
strictly greater than the median of the column (equality excluded); for
`[10, 20, 30, 40]` the median is `25` and the eligible set is the tickers
holding `30` and `40`. -/
theorem c6_eligible_strictly_above_median :
    (∀ (liq : List (String × ℕ)) (t : String),
        t ∈ eligibleOf liq ↔
          ∃ v, (t, v) ∈ liq ∧ median (liq.map Prod.snd) < (v : ℚ)) ∧
      median [10, 20, 30, 40] = 25 ∧
      eligibleOf [("A", 10), ("B", 20), ("C", 30), ("D", 40)] = ["C", "D"] := by
  refine ⟨mem_eligibleOf, median_example, ?_⟩
  norm_num [eligibleOf, median_example, List.filter]

/-- C2 (amended): because the pick's row is extracted as a `float64`
Series, the report renders every open-interest value as a comma-grouped
float with a trailing `".0"`: `999` as `"999.0"`, `1500` as `"1,500.0"`,
`2500000` as `"2,500,000.0"`; no `k`/`m` abbreviation exists. -/
theorem c2_amended_comma_formatting :
    formatOpenInterest 999 = "999.0" ∧ formatOpenInterest 1500 = "1,500.0" ∧
      formatOpenInterest 2500000 = "2,500,000.0" := by
  refine ⟨by decide, by decide, by decide⟩

/-- C2 counterexample: the report renders `999` as `"999.0"`, `1500` as
`"1,500.0"` and `2500000` as `"2,500,000.0"` — not `"999"`, `"1.5k"` and
`"2.5m"` as the claim states. -/
theorem c2_counterexample :
    formatOpenInterest 999 ≠ "999" ∧ formatOpenInterest 1500 ≠ "1.5k" ∧
      formatOpenInterest 2500000 ≠ "2.5m" := by
  refine ⟨by decide, by decide, by decide⟩

/-- C4: with min-method tie-breaking on descending open interest, the
values `[100, 100, 50]` get ranks `[1, 1, 3]`, and their `pct_of_max`
values are `[100.00, 100.00, 50.00]`. -/
theorem c4_rank_and_pct_example :
    ([100, 100, 50] : List ℕ).map (rankOf [100, 100, 50]) = [1, 1, 3] ∧
      ([100, 100, 50] : List ℕ).map (pct_of_max [100, 100, 50]) =
        [some 100, some 100, some 50] := by
  refine ⟨by decide, ?_⟩
  norm_num [pct_of_max, round2]

/-- C3: the roster-cache staleness check fires iff the cache is absent or
`today - as_of` strictly exceeds `maxAgeDays`; a cache exactly
`maxAgeDays` old is not stale. -/
theorem c3_staleness_boundary (today maxAge : ℤ) (cache : RosterCache) :
    (should_refresh false (load_cached_members cache).1 (load_cached_members cache).2
        today maxAge = true ↔
      cache = none ∨ ∃ l d, cache = some (l, d) ∧ maxAge < today - d) ∧
      (∀ l : List String,
        should_refresh false (some l) (some (today - maxAge)) today maxAge = false) := by
  constructor
  · cases cache with
    | none => simp [should_refresh, load_cached_members]
    | some p =>
        obtain ⟨l, d⟩ := p
        simp [should_refresh, load_cached_members]
        constructor
        · intro h
          exact ⟨l, d, ⟨rfl, rfl⟩, h⟩
        · rintro ⟨l1, d1, ⟨h1, h2⟩, h⟩
          subst h1
          subst h2
          exact h
  · intro l
    simp [should_refresh]

/-- C7: the run fails with the insufficient-pool error exactly when the
eligible pool is smaller than the requested count, and succeeds with a
sample exactly when the pool is at least the requested count. -/
theorem c7_insufficient_pool (r : ℕ → ℕ) (count : ℕ) (eligible : List String) :
    (samplePicks r count eligible =
        Except.error "Not enough eligible tickers to sample from." ↔
      eligible.length < count) ∧
      ((∃ picks, samplePicks r count eligible = Except.ok picks) ↔
        count ≤ eligible.length) := by
  unfold samplePicks
  split_ifs with h
  · simp [h]
  · simp
    omega

/-- C8: `option_liquidity_metric` always returns a non-negative integer:
`0` when listing the expirations raises, when no expiration exists, or
when fetching the first-listed chain raises; otherwise the sum of the
`openInterest` columns of the calls and puts of the first expiry, with
missing entries counted as `0`. -/
theorem c8_metric_total (tk : TickerData) :
    0 ≤ option_liquidity_metric tk ∧
      (∀ e, tk.options = Except.error e → option_liquidity_metric tk = 0) ∧
      (tk.options = Except.ok [] → option_liquidity_metric tk = 0) ∧
      (∀ nearest rest e, tk.options = Except.ok (nearest :: rest) →
        tk.chain nearest = Except.error e → option_liquidity_metric tk = 0) ∧
      (∀ nearest rest ch, tk.options = Except.ok (nearest :: rest) →
        tk.chain nearest = Except.ok ch →
        option_liquidity_metric tk = sumOI ch.calls + sumOI ch.puts) := by
  refine ⟨Nat.zero_le _, ?_, ?_, ?_, ?_⟩ <;>
    intros <;> simp [option_liquidity_metric, *]

/-- Concrete ticker data used to instantiate the C8 theorem. -/
def tkExample : TickerData :=
  ⟨Except.ok ["2026-01-16"], fun _ => Except.ok ⟨[some 3, none], [some 4]⟩⟩

/-- Witness for C8 at a concrete ticker-data record. -/
theorem c8_metric_total_witness : option_liquidity_metric tkExample = 7 := by
  have h := (c8_metric_total tkExample).2.2.2.2 "2026-01-16" []
    ⟨[some 3, none], [some 4]⟩ rfl rfl
  simpa [sumOI] using h


theorem randomSample_length (r : ℕ → ℕ) :
    ∀ (k : ℕ) (pool : List String), k ≤ pool.length →
      (randomSample r k pool).length = k := by
  intro k
  induction k with
  | zero => intro pool _; rfl
  | succ k ih =>
      intro pool h
      match pool with
      | [] => exact absurd h (Nat.not_succ_le_zero k)
      | p :: ps =>
          have hj : r k % (p :: ps).length < (p :: ps).length :=
            Nat.mod_lt _ (Nat.succ_pos ps.length)
          simp only [randomSample, List.length_cons]
          rw [ih]
          · rw [List.length_eraseIdx]
            split
            all_goals simp only [List.length_cons] at h ⊢
            all_goals omega

theorem randomSample_subset (r : ℕ → ℕ) :
    ∀ (k : ℕ) (pool : List String) (x : String),
      x ∈ randomSample r k pool → x ∈ pool := by
  intro k
  induction k with
  | zero => intro pool x hx; simp [randomSample] at hx
  | succ k ih =>
      intro pool x hx
      match pool with
      | [] => simp [randomSample] at hx
      | p :: ps =>
          simp only [randomSample] at hx
          rcases List.mem_cons.mp hx with h | h
          · rw [h]; exact List.get_mem _ _ _
          · exact List.eraseIdx_subset _ _ (ih _ _ h)

theorem get_not_mem_eraseIdx (l : List String) (hnd : l.Nodup) (j : ℕ)
    (hj : j < l.length) : l.get ⟨j, hj⟩ ∉ l.eraseIdx j := by
  intro hmem
  rw [List.mem_eraseIdx_iff_get] at hmem
  obtain ⟨i, hne, hget⟩ := hmem
  have : i = ⟨j, hj⟩ := (List.Nodup.get_inj_iff hnd).mp hget
  exact hne (by rw [this])

theorem randomSample_nodup (r : ℕ → ℕ) :
    ∀ (k : ℕ) (pool : List String), pool.Nodup →
      (randomSample r k pool).Nodup := by
  intro k
  induction k with
  | zero => intro pool _; simp [randomSample]
  | succ k ih =>
      intro pool hnd
      match pool with
      | [] => simp [randomSample]
      | p :: ps =>
          simp only [randomSample, List.nodup_cons]
          refine ⟨?_, ih _ (List.Nodup.eraseIdx _ hnd)⟩
          intro hmem
          exact get_not_mem_eraseIdx _ hnd _ _ (randomSample_subset r _ _ _ hmem)

/-- C9: drawing `count = k` from a pool of size at least `k` yields exactly
`k` distinct tickers, all members of the pool, and the sample is a
deterministic function of the PRNG stream: equal streams, same pool and
count give the identical sample. -/
theorem c9_sampling (r : ℕ → ℕ) (k : ℕ) (pool : List String)
    (hk : k ≤ pool.length) (hnd : pool.Nodup) :
    (randomSample r k pool).length = k ∧
      (randomSample r k pool).Nodup ∧
      (∀ x ∈ randomSample r k pool, x ∈ pool) ∧
      (∀ r2 : ℕ → ℕ, (∀ i, r2 i = r i) →
        randomSample r2 k pool = randomSample r k pool) := by
  refine ⟨randomSample_length r k pool hk, randomSample_nodup r k pool hnd,
    fun x hx => randomSample_subset r k pool x hx, ?_⟩
  intro r2 h
  rw [funext h]

/-- Witness for C9: a concrete draw of two from a pool of three. -/
theorem c9_sampling_witness :
    (randomSample (fun i => i + 2) 2 ["A", "B", "C"]).length = 2 ∧
      (randomSample (fun i => i + 2) 2 ["A", "B", "C"]).Nodup ∧
      (∀ x ∈ randomSample (fun i => i + 2) 2 ["A", "B", "C"],
        x ∈ ["A", "B", "C"]) ∧
      (∀ r2 : ℕ → ℕ, (∀ i, r2 i = i + 2) →
        randomSample r2 2 ["A", "B", "C"] =
          randomSample (fun i => i + 2) 2 ["A", "B", "C"]) :=
  c9_sampling (fun i => i + 2) 2 ["A", "B", "C"] (by decide) (by decide)


theorem le_foldr_max (l : List ℕ) : ∀ v ∈ l, v ≤ l.foldr max 0 := by
  induction l with
  | nil => simp
  | cons a l ih =>
      intro v hv
      rcases List.mem_cons.mp hv with rfl | hv
      · exact le_max_left _ _
      · exact le_trans (ih v hv) (le_max_right _ _)

theorem rankOf_max (values : List ℕ) :
    rankOf values (values.foldr max 0) = 1 := by
  unfold rankOf
  rw [List.countP_eq_zero.mpr]
  intro v hv
  simp only [decide_eq_true_eq, not_lt]
  exact le_foldr_max values v hv

theorem pct_of_max_top (values : List ℕ) (h : values.foldr max 0 ≠ 0) :
    pct_of_max values (values.foldr max 0) = some 100 := by
  unfold pct_of_max
  simp only [h, if_false]
  have hq : ((values.foldr max 0 : ℕ) : ℚ) ≠ 0 := Nat.cast_ne_zero.mpr h
  rw [div_self hq]
  norm_num [round2]

/-- C5 counterexample: build the table from the single-ticker roster
`["A"]` with every fetch returning `0`.  The sole record holds the global
maximum open interest (`0`), yet its `pct_of_max` is the float non-number
`0 / 0` (modelled `none`), not `100.00`. -/
theorem c5_counterexample :
    annotate (build_liquidity_table (fun _ => 0) ["A"]) =
        [⟨"A", 0, 1, none⟩] ∧
      (⟨"A", 0, 1, none⟩ : LiqRecord).open_interest =
        ((build_liquidity_table (fun _ => 0) ["A"]).map Prod.snd).foldr max 0 ∧
      (⟨"A", 0, 1, none⟩ : LiqRecord).pct ≠ some 100 := by
  refine ⟨?_, by decide, by decide⟩
  norm_num [annotate, build_liquidity_table, rankOf, pct_of_max]

/-- C5 (amended): a liquidity table built from a roster of distinct
tickers has exactly one record per roster ticker, and, provided the global
maximum open interest is positive, every record holding that maximum has
`pct_of_max = 100.00` and `rank = 1`. -/
theorem c5_amended_table_invariant (fetch : String → ℕ) (tickers : List String)
    (hnd : tickers.Nodup)
    (hpos : 0 < ((build_liquidity_table fetch tickers).map Prod.snd).foldr max 0) :
    ((annotate (build_liquidity_table fetch tickers)).map LiqRecord.ticker
        = tickers) ∧
      (∀ t ∈ tickers,
        (annotate (build_liquidity_table fetch tickers)).countP
          (fun rec => decide (rec.ticker = t)) = 1) ∧
      (∀ rec ∈ annotate (build_liquidity_table fetch tickers),
        rec.open_interest =
            ((build_liquidity_table fetch tickers).map Prod.snd).foldr max 0 →
          rec.pct = some 100 ∧ rec.rank = 1) := by
  have hmap : (annotate (build_liquidity_table fetch tickers)).map LiqRecord.ticker
      = tickers := by
    simp [annotate, build_liquidity_table, List.map_map]
    exact List.map_id tickers
  refine ⟨hmap, ?_, ?_⟩
  · intro t ht
    have h1 : (annotate (build_liquidity_table fetch tickers)).countP
        (fun rec => decide (rec.ticker = t))
        = ((annotate (build_liquidity_table fetch tickers)).map
            LiqRecord.ticker).countP (fun x => decide (x = t)) := by
      rw [List.countP_map]
      rfl
    rw [h1, hmap]
    have hfun : (fun x : String => decide (x = t)) = (fun x => x == t) := by
      funext x
      by_cases h : x = t <;> simp [h, beq_eq_false_iff_ne]
    rw [hfun]
    exact List.count_eq_one_of_mem hnd ht
  · intro rec hrec hmax
    have : ∃ q ∈ build_liquidity_table fetch tickers,
        rec = ⟨q.1, q.2, rankOf ((build_liquidity_table fetch tickers).map Prod.snd) q.2,
          pct_of_max ((build_liquidity_table fetch tickers).map Prod.snd) q.2⟩ := by
      simp only [annotate, List.mem_map] at hrec
      obtain ⟨q, hq, rfl⟩ := hrec
      exact ⟨q, hq, rfl⟩
    obtain ⟨q, hq, rfl⟩ := this
    simp only at hmax
    constructor
    · show pct_of_max _ q.2 = some 100
      rw [hmax]
      exact pct_of_max_top _ (Nat.pos_iff_ne_zero.mp hpos)
    · show rankOf _ q.2 = 1
      rw [hmax]
      exact rankOf_max _


/-- Witness for the amended C5 at a concrete two-ticker roster. -/
theorem c5_amended_table_invariant_witness :
    ((annotate (build_liquidity_table
        (fun t => if t = "A" then 4 else 2) ["A", "B"])).map LiqRecord.ticker
      = ["A", "B"]) ∧
      (∀ t ∈ ["A", "B"],
        (annotate (build_liquidity_table
            (fun t => if t = "A" then 4 else 2) ["A", "B"])).countP
          (fun rec => decide (rec.ticker = t)) = 1) ∧
      (∀ rec ∈ annotate (build_liquidity_table
          (fun t => if t = "A" then 4 else 2) ["A", "B"]),
        rec.open_interest =
            ((build_liquidity_table
              (fun t => if t = "A" then 4 else 2) ["A", "B"]).map
                Prod.snd).foldr max 0 →
          rec.pct = some 100 ∧ rec.rank = 1) :=
  c5_amended_table_invariant (fun t => if t = "A" then 4 else 2) ["A", "B"]
    (by decide) (by decide)


theorem sorted_getElem_le {s : List ℕ} (hs : List.Sorted (· ≤ ·) s)
    {i p : ℕ} (hi : i < s.length) (hp : p < s.length) (hip : i ≤ p) :
    s[i] ≤ s[p] := by
  rcases Nat.lt_or_ge i p with hlt | hge
  · exact List.pairwise_iff_getElem.mp hs i p hi hp hlt
  · have : i = p := Nat.le_antisymm hip hge
    subst this
    exact Nat.le_refl _

theorem take_le_getD {s : List ℕ} (hs : List.Sorted (· ≤ ·) s) {p : ℕ}
    (hp : p < s.length) : ∀ x ∈ s.take (p + 1), x ≤ s.getD p 0 := by
  intro x hx
  obtain ⟨i, hi, hxe⟩ := List.mem_iff_getElem.mp hx
  have hi2 : i < s.length := Nat.lt_of_lt_of_le hi (by
    rw [List.length_take]
    exact Nat.min_le_right _ _)
  have hip : i ≤ p := by
    have : i < p + 1 := Nat.lt_of_lt_of_le hi (by
      rw [List.length_take]
      exact Nat.min_le_left _ _)
    omega
  rw [List.getElem_take] at hxe
  rw [List.getD_eq_getElem _ _ hp]
  rw [← hxe]
  exact sorted_getElem_le hs hi2 hp hip

theorem getD_le_medianSorted (s : List ℕ) (hs : List.Sorted (· ≤ ·) s)
    (hne : s ≠ []) :
    (s.getD (s.length - s.length / 2 - 1) 0 : ℚ) ≤ medianSorted s := by
  have hn : 1 ≤ s.length := List.length_pos.mpr hne
  unfold medianSorted
  by_cases hpar : s.length % 2 = 1
  · rw [if_pos hpar]
    have he : s.length - s.length / 2 - 1 = s.length / 2 := by omega
    rw [he]
  · rw [if_neg hpar]
    have he : s.length - s.length / 2 - 1 = s.length / 2 - 1 := by omega
    rw [he]
    have hi : s.length / 2 - 1 < s.length := by omega
    have hj : s.length / 2 < s.length := by omega
    have hab : s.getD (s.length / 2 - 1) 0 ≤ s.getD (s.length / 2) 0 := by
      rw [List.getD_eq_getElem _ _ hi, List.getD_eq_getElem _ _ hj]
      exact sorted_getElem_le hs hi hj (by omega)
    have hq : ((s.getD (s.length / 2 - 1) 0 : ℕ) : ℚ)
        ≤ ((s.getD (s.length / 2) 0 : ℕ) : ℚ) := Nat.cast_le.mpr hab
    linarith

theorem countP_gt_medianSorted (s : List ℕ) (hs : List.Sorted (· ≤ ·) s)
    (hne : s ≠ []) :
    s.countP (fun v : ℕ => decide (medianSorted s < (v : ℚ))) ≤ s.length / 2 := by
  have hn : 1 ≤ s.length := List.length_pos.mpr hne
  have hplt : s.length - s.length / 2 - 1 < s.length := by omega
  have hsplit := List.take_append_drop (s.length - s.length / 2) s
  have hczero : (s.take (s.length - s.length / 2)).countP
      (fun v : ℕ => decide (medianSorted s < (v : ℚ))) = 0 := by
    rw [List.countP_eq_zero]
    intro x hx
    simp only [decide_eq_true_eq, not_lt]
    have hxle : x ≤ s.getD (s.length - s.length / 2 - 1) 0 := by
      apply take_le_getD hs hplt
      have : s.length - s.length / 2 - 1 + 1 = s.length - s.length / 2 := by omega
      rw [this]
      exact hx
    calc ((x : ℕ) : ℚ) ≤ (s.getD (s.length - s.length / 2 - 1) 0 : ℚ) :=
          Nat.cast_le.mpr hxle
      _ ≤ medianSorted s := getD_le_medianSorted s hs hne
  calc s.countP (fun v : ℕ => decide (medianSorted s < (v : ℚ)))
      = (s.take (s.length - s.length / 2)
          ++ s.drop (s.length - s.length / 2)).countP
          (fun v : ℕ => decide (medianSorted s < (v : ℚ))) := by rw [hsplit]
    _ = (s.take (s.length - s.length / 2)).countP
          (fun v : ℕ => decide (medianSorted s < (v : ℚ)))
        + (s.drop (s.length - s.length / 2)).countP
          (fun v : ℕ => decide (medianSorted s < (v : ℚ))) :=
        List.countP_append _ _ _
    _ ≤ 0 + (s.drop (s.length - s.length / 2)).length := by
        rw [hczero]
        exact Nat.add_le_add_left (List.countP_le_length _) 0
    _ ≤ s.length / 2 := by
        rw [List.length_drop]
        omega

/-- C10: in any non-empty liquidity table, the strictly-above-median
eligible set has at most `floor(n / 2)` members (with the pandas median,
the mean of the two middle values for an even column); consequently any
requested count above `floor(n / 2)` hits the insufficient-pool error no
matter what was fetched. -/
theorem c10_eligible_at_most_half (liq : List (String × ℕ)) (hne : liq ≠ []) :
    (eligibleOf liq).length ≤ liq.length / 2 ∧
      ∀ (r : ℕ → ℕ) (count : ℕ), liq.length / 2 < count →
        samplePicks r count (eligibleOf liq) =
          Except.error "Not enough eligible tickers to sample from." := by
  have hvne : liq.map Prod.snd ≠ [] := by
    intro h
    exact hne (List.map_eq_nil.mp h)
  have hperm : List.Perm (List.insertionSort (· ≤ ·) (liq.map Prod.snd))
      (liq.map Prod.snd) := List.perm_insertionSort _ _
  have hsort : List.Sorted (· ≤ ·)
      (List.insertionSort (· ≤ ·) (liq.map Prod.snd)) :=
    List.sorted_insertionSort _ _
  have hsne : List.insertionSort (· ≤ ·) (liq.map Prod.snd) ≠ [] := by
    intro h
    apply hvne
    have := hperm.length_eq
    rw [h] at this
    exact List.length_eq_zero.mp this.symm
  have hlen : (eligibleOf liq).length =
      (liq.map Prod.snd).countP
        (fun v : ℕ => decide (median (liq.map Prod.snd) < (v : ℚ))) := by
    unfold eligibleOf
    rw [List.length_map, ← List.countP_eq_length_filter, List.countP_map]
    rfl
  have hkey : (eligibleOf liq).length ≤ liq.length / 2 := by
    rw [hlen, ← hperm.countP_eq]
    have hh := countP_gt_medianSorted _ hsort hsne
    rw [List.length_insertionSort] at hh
    rw [List.length_map] at hh
    unfold median
    exact hh
  refine ⟨hkey, ?_⟩
  intro r count hcount
  unfold samplePicks
  rw [if_pos]
  omega

/-- Witness for C10 at a concrete one-row table. -/
theorem c10_eligible_at_most_half_witness :
    (eligibleOf [("A", 3)]).length ≤ ([("A", 3)] : List (String × ℕ)).length / 2 ∧
      ∀ (r : ℕ → ℕ) (count : ℕ),
        ([("A", 3)] : List (String × ℕ)).length / 2 < count →
          samplePicks r count (eligibleOf [("A", 3)]) =
            Except.error "Not enough eligible tickers to sample from." :=
  c10_eligible_at_most_half [("A", 3)] (by decide)


/-- C1 (amended): the program never reads the persisted liquidity table:
the run's outcome is unchanged by any replacement of the liquidity CSV
state, and a successful run's table is always the one freshly rebuilt by
per-ticker fetch over the resolved roster. -/
theorem c1_amended_liquidity_always_rebuilt (count : ℕ) (refresh : Bool)
    (env : Env) (csv : Option (List LiqRecord × ℕ)) :
    mainRun count refresh { env with liqCsv := csv } = mainRun count refresh env ∧
      (builtTable (mainRun count refresh env) = none ∨
        builtTable (mainRun count refresh env) =
          some (annotate (build_liquidity_table
            (fun t => option_liquidity_metric (env.tickerData t))
            (get_sp500_members refresh env.rosterCache env.scraped env.today)))) := by
  constructor
  · cases env
    rfl
  · simp only [mainRun, builtTable]
    rcases hsp : samplePicks env.rand count (eligibleOf (build_liquidity_table
        (fun t => option_liquidity_metric (env.tickerData t))
        (get_sp500_members refresh env.rosterCache env.scraped env.today)))
      with e | picks <;> simp

/-- Concrete environment for the C1 counterexample: no roster cache, a
two-ticker scrape, per-ticker options data giving open interests 10 and 2,
and a persisted liquidity CSV of age 0 holding a different table. -/
def envC1Example : Env :=
  ⟨0, none, ["AA", "B"],
    fun t => ⟨Except.ok ["e"],
      fun _ => Except.ok ⟨[some (if t.length = 2 then 10 else 2)], []⟩⟩,
    some ([⟨"X", 999, 1, some 100⟩], 0),
    fun _ => 0⟩

/-- C1 counterexample: refresh is not forced and a persisted liquidity
table of age 0 (within any max age) exists, yet the run returns the table
freshly rebuilt from per-ticker fetches, not the persisted one. -/
theorem c1_counterexample :
    envC1Example.liqCsv = some ([⟨"X", 999, 1, some 100⟩], 0) ∧
      builtTable (mainRun 1 false envC1Example) =
        some [⟨"AA", 10, 1, some 100⟩, ⟨"B", 2, 2, some 20⟩] ∧
      builtTable (mainRun 1 false envC1Example) ≠
        some [⟨"X", 999, 1, some 100⟩] := by
  have hb : build_liquidity_table
      (fun t => option_liquidity_metric (envC1Example.tickerData t))
      (get_sp500_members false envC1Example.rosterCache envC1Example.scraped
        envC1Example.today) = [("AA", 10), ("B", 2)] := rfl
  have hmed : median [10, 2] = 6 := by
    norm_num [median, medianSorted, List.insertionSort, List.orderedInsert]
  have hel : eligibleOf [("AA", 10), ("B", 2)] = ["AA"] := by
    norm_num [eligibleOf, hmed, List.filter]
  have hann : annotate [("AA", 10), ("B", 2)] =
      [⟨"AA", 10, 1, some 100⟩, ⟨"B", 2, 2, some 20⟩] := by
    norm_num [annotate, rankOf, pct_of_max, round2]
  have htab : builtTable (mainRun 1 false envC1Example) =
      some [⟨"AA", 10, 1, some 100⟩, ⟨"B", 2, 2, some 20⟩] := by
    simp only [mainRun, hb, hel, hann]
    rfl
  refine ⟨rfl, htab, ?_⟩
  rw [htab]
  decide

end OptionSpinner
